import Mathlib

/-!
Verification of the Blush oscillator core (`src/lib.rs`).

The development shallowly embeds the plugin's processing state machine:
`f32` values are modelled as real numbers (the algorithmic content of the
source is real arithmetic plus `sin`/`exp`), `u8`/`u32` values as naturals,
and the mutable `Osc` struct as an explicit state record threaded through
pure functions.  The host-side event queue (`ProcessContext::next_event`,
which *pops* the next event) is modelled as a list whose head is removed by
each pull.  The nih_plug library pieces the source uses (`Smoother`,
`util::midi_note_to_freq`, `util::db_to_gain_fast`) are modelled from the
library's definitions.
-/

namespace Blush

noncomputable section

/-- Model of nih_plug's `Smoother<f32>` with `SmoothingStyle::Linear(ms)`:
`style_ms` is the smoothing time in milliseconds, `stepsLeft` the remaining
step counter, `stepSize` the per-step linear increment, `current` the last
produced value and `target` the convergence target. -/
structure Smoother where
  style_ms : ℝ
  stepsLeft : ℕ
  stepSize : ℝ
  current : ℝ
  target : ℝ

/-- Model of `Smoother::new(SmoothingStyle::Linear(ms))`: counter, step size, current
value and target all start at zero. -/
def Smoother.new (ms : ℝ) : Smoother :=
  { style_ms := ms, stepsLeft := 0, stepSize := 0, current := 0, target := 0 }

/-- Model of `Smoother::set_target(sample_rate, target)`: stores the new target,
recomputes the step counter as `(sample_rate * ms / 1000).round()` and the
linear step size as `(target - current) / steps`.  (`round` rounds half away
from zero in Rust; all arguments used here are nonnegative, where that agrees
with Mathlib's `round`.  When `steps = 0` the source's `f32` division produces
a value that is never read, since `next` ignores `stepSize` once the counter
is zero; the real-valued model makes it `0`.) -/
def Smoother.set_target (sm : Smoother) (sample_rate target : ℝ) : Smoother :=
  let steps : ℕ := (round (sample_rate * sm.style_ms / 1000)).toNat
  { sm with
    target := target
    stepsLeft := steps
    stepSize := (target - sm.current) / (steps : ℝ) }

/-- Model of `Smoother::next()`: while the counter is positive, decrement it and move
the current value one linear step (snapping exactly to `target` on the last
step); once the counter is exhausted, keep returning `target`. -/
def Smoother.next (sm : Smoother) : Smoother × ℝ :=
  if sm.stepsLeft > 0 then
    let new := if sm.stepsLeft = 1 then sm.target else sm.current + sm.stepSize
    ({ sm with stepsLeft := sm.stepsLeft - 1, current := new }, new)
  else (sm, sm.target)

/-- Model of nih_plug's `util::midi_note_to_freq`: the equal-temperament
mapping `2^((note - 69) / 12) * 440`. -/
def midi_note_to_freq (note : ℕ) : ℝ :=
  (2 : ℝ) ^ (((note : ℝ) - 69) / 12) * 440

/-- Model of nih_plug's `util::db_to_gain_fast`: the dB-to-linear-gain
conversion, exactly `10 ^ (dbs / 20)` over the reals (the `fast` variant
computes it through a base-2 exponential). -/
def db_to_gain_fast (dbs : ℝ) : ℝ :=
  (10 : ℝ) ^ (dbs / 20)

/-- The note events the `process` loop matches on.  `timing` is the event's
sample offset within the block (`u32`), `note` the MIDI note id (`u8`),
velocity/pressure the `f32` payload.  All other nih_plug event kinds fall
into the source's `_ => ()` arm and are modelled by `other`. -/
inductive NoteEvent where
  | noteOn (timing : ℕ) (note : ℕ) (velocity : ℝ)
  | noteOff (timing : ℕ) (note : ℕ)
  | polyPressure (timing : ℕ) (note : ℕ) (pressure : ℝ)
  | other (timing : ℕ)

/-- Model of `NoteEvent::timing()`. -/
def NoteEvent.timing : NoteEvent → ℕ
  | noteOn t _ _ => t
  | noteOff t _ => t
  | polyPressure t _ _ => t
  | other t => t

/-- The mutable state of the `Osc` plugin struct: session sample rate, the
oscillator phase accumulator, the held MIDI note id, its frequency, the
velocity/pressure-driven amplitude smoother `midi_note_gain`, and the
smoother of the host-owned `gain` parameter (`params.gain.smoothed`, the
only parameter state `process` touches). -/
structure Osc where
  sample_rate : ℝ
  phase : ℝ
  midi_note_id : ℕ
  midi_note_freq : ℝ
  midi_note_gain : Smoother
  gain_smoother : Smoother

/-- Model of `Osc::default()`: sample rate 1.0, phase 0.0, note id 0, note frequency
1.0, a fresh 5 ms linear amplitude smoother; the `gain` parameter defaults
to -10 dB with a 3 ms linear smoother resting at its default value. -/
def Osc.default : Osc :=
  { sample_rate := 1
    phase := 0
    midi_note_id := 0
    midi_note_freq := 1
    midi_note_gain := Smoother.new 5
    gain_smoother :=
      { style_ms := 3, stepsLeft := 0, stepSize := 0, current := -10, target := -10 } }

/-- Model of `Osc::calculate_sine(frequency)`: read the sine at the current phase,
then advance the phase by `frequency / sample_rate` and subtract 1.0 once
when the result is `>= 1.0`. -/
def Osc.calculate_sine (s : Osc) (frequency : ℝ) : Osc × ℝ :=
  let phase_delta := frequency / s.sample_rate
  let sine := Real.sin (s.phase * (2 * Real.pi))
  let p := s.phase + phase_delta
  ({ s with phase := if p ≥ 1 then p - 1 else p }, sine)

/-- The effect of one matched event in `process`: `NoteOn` overwrites the
note id, its frequency, and retargets the amplitude smoother to the
velocity; `NoteOff`/`PolyPressure` are guarded by `note == self.midi_note_id`
and otherwise fall through to `_ => ()`. -/
def Osc.applyEvent (s : Osc) (e : NoteEvent) : Osc :=
  match e with
  | .noteOn _ note velocity =>
      { s with
        midi_note_id := note
        midi_note_freq := midi_note_to_freq note
        midi_note_gain := s.midi_note_gain.set_target s.sample_rate velocity }
  | .noteOff _ note =>
      if note = s.midi_note_id then
        { s with midi_note_gain := s.midi_note_gain.set_target s.sample_rate 0 }
      else s
  | .polyPressure _ note pressure =>
      if note = s.midi_note_id then
        { s with midi_note_gain := s.midi_note_gain.set_target s.sample_rate pressure }
      else s
  | .other _ => s

/-- The `while let Some(event) = context.next_event()` loop at sample `sid`:
pop the head of the queue; if its timing is beyond `sid`, break — note that
the popped event is *not* put back (this mirrors the source exactly:
`next_event` consumes the event even when the loop then breaks); otherwise
apply it and continue.  Returns the updated state and the remaining queue. -/
def Osc.consumeEvents (sid : ℕ) : Osc → List NoteEvent → Osc × List NoteEvent
  | s, [] => (s, [])
  | s, e :: rest =>
      if e.timing > sid then (s, rest)
      else Osc.consumeEvents sid (s.applyEvent e) rest

/-- One iteration of the outer `for (sid, ch_samples)` loop of
`Osc::process`: advance the `gain` parameter smoother, run the event loop,
compute `calculate_sine(midi_note_freq) * midi_note_gain.next()`, and the
per-channel written value `sine * db_to_gain_fast(gain)`.  Returns the new
state, the remaining event queue, and the value written to every channel. -/
def Osc.processSample (s : Osc) (events : List NoteEvent) (sid : ℕ) :
    Osc × List NoteEvent × ℝ :=
  let g := s.gain_smoother.next
  let s1 : Osc := { s with gain_smoother := g.1 }
  let c := Osc.consumeEvents sid s1 events
  let r := c.1.calculate_sine c.1.midi_note_freq
  let a := r.1.midi_note_gain.next
  ({ r.1 with midi_note_gain := a.1 }, c.2, r.2 * a.2 * db_to_gain_fast g.2)

/-- The `process` loop over sample indices `sid, sid+1, ...` for `n` more
samples; every channel of a sample index receives the same value, modelled
by `List.replicate numCh`. -/
def Osc.processFrom (numCh : ℕ) : ℕ → Osc → List NoteEvent → ℕ → Osc × List (List ℝ)
  | 0, s, _, _ => (s, [])
  | Nat.succ n, s, events, sid =>
      let r := Osc.processSample s events sid
      let rest := Osc.processFrom numCh n r.1 r.2.1 (sid + 1)
      (rest.1, List.replicate numCh r.2.2 :: rest.2)

/-- The status value `process` returns. -/
inductive ProcessStatus where
  | error
  | normal
  | tail (samples : ℕ)
  | keepAlive

/-- Model of `Osc::process`: run the per-sample loop over the whole block of
`blockLen` samples (with `numCh` output channels) and return
`ProcessStatus::KeepAlive`. -/
def Osc.process (s : Osc) (events : List NoteEvent) (blockLen numCh : ℕ) :
    Osc × List (List ℝ) × ProcessStatus :=
  let r := Osc.processFrom numCh blockLen s events 0
  (r.1, r.2, ProcessStatus.keepAlive)

/-- Model of `Plugin::initialize` as far as the core state is concerned: store the
buffer configuration's sample rate. -/
def Osc.initSession (s : Osc) (sr : ℝ) : Osc :=
  { s with sample_rate := sr }

/-- Model of `Osc::reset()`: build a throwaway `Self::default()` and copy its phase,
note frequency, amplitude smoother and note id; `sample_rate` and `params`
are not touched. -/
def Osc.reset (s : Osc) : Osc :=
  let tmp := Osc.default
  { s with
    phase := tmp.phase
    midi_note_freq := tmp.midi_note_freq
    midi_note_gain := tmp.midi_note_gain
    midi_note_id := tmp.midi_note_id }

/-- Iterated `calculate_sine` over a list of per-call frequencies (state
only; the returned samples are discarded). -/
def Osc.advanceFreqs (s : Osc) (fs : List ℝ) : Osc :=
  fs.foldl (fun t f => (t.calculate_sine f).1) s

/-- Events compatible with the (amended) silence property: no `NoteOn`, and
no `PolyPressure` for note id 0 (the power-on default `midi_note_id`, which
the source's guard treats as the held note). -/
def eventAllowedForSilence : NoteEvent → Bool
  | .noteOn _ _ _ => false
  | .polyPressure _ note _ => note != 0
  | _ => true

/-- The amplitude smoother configuration that can only ever emit 0. -/
def silentAmp (sm : Smoother) : Prop :=
  sm.current = 0 ∧ sm.target = 0 ∧ sm.stepSize = 0

/-- States from which `process` can only write silence (given allowed
events): note id 0 and a silent amplitude smoother. -/
def silentState (s : Osc) : Prop :=
  s.midi_note_id = 0 ∧ silentAmp s.midi_note_gain

/-- Modelled from the spec, section 4.5 BlockProcessor: the dB-to-linear
conversion written there as `10^(gainDb/20)`. -/
def dBToLinear (db : ℝ) : ℝ :=
  (10 : ℝ) ^ (db / 20)

/-- Modelled from the spec, section 4.5 BlockProcessor, one sample: first
dispatch due events, then `rawSample` from the oscillator at the tracker's
frequency, then `rawSample * amplitude.next() * dBToLinear(gain.next())`,
written identically to every channel. -/
def Osc.specSample (s : Osc) (events : List NoteEvent) (sid : ℕ) :
    Osc × List NoteEvent × ℝ :=
  let c := Osc.consumeEvents sid s events
  let r := c.1.calculate_sine c.1.midi_note_freq
  let a := r.1.midi_note_gain.next
  let g := r.1.gain_smoother.next
  ({ r.1 with midi_note_gain := a.1, gain_smoother := g.1 }, c.2,
    r.2 * a.2 * dBToLinear g.2)

/-- Modelled from the spec, section 4.5: the per-block sample loop. -/
def Osc.specProcessFrom (numCh : ℕ) : ℕ → Osc → List NoteEvent → ℕ → Osc × List (List ℝ)
  | 0, s, _, _ => (s, [])
  | Nat.succ n, s, events, sid =>
      let r := Osc.specSample s events sid
      let rest := Osc.specProcessFrom numCh n r.1 r.2.1 (sid + 1)
      (rest.1, List.replicate numCh r.2.2 :: rest.2)

/-- Modelled from the spec, section 4.5 BlockProcessor: drive the pipeline
over the block and report that the engine should remain active. -/
def Osc.blockProcessorSpec (s : Osc) (events : List NoteEvent) (blockLen numCh : ℕ) :
    Osc × List (List ℝ) × ProcessStatus :=
  let r := Osc.specProcessFrom numCh blockLen s events 0
  (r.1, r.2, ProcessStatus.keepAlive)

/-! ### Frame lemmas -/

/-- Applying any single event never touches the phase accumulator. -/
theorem Osc.applyEvent_phase (s : Osc) (e : NoteEvent) :
    (s.applyEvent e).phase = s.phase := by
  cases e with
  | noteOn t n v => rfl
  | noteOff t n => by_cases h : n = s.midi_note_id <;> simp [Osc.applyEvent, h]
  | polyPressure t n p => by_cases h : n = s.midi_note_id <;> simp [Osc.applyEvent, h]
  | other t => rfl

/-- Applying any single event never touches the gain-parameter smoother. -/
theorem Osc.applyEvent_gsm (s : Osc) (e : NoteEvent) :
    (s.applyEvent e).gain_smoother = s.gain_smoother := by
  cases e with
  | noteOn t n v => rfl
  | noteOff t n => by_cases h : n = s.midi_note_id <;> simp [Osc.applyEvent, h]
  | polyPressure t n p => by_cases h : n = s.midi_note_id <;> simp [Osc.applyEvent, h]
  | other t => rfl

/-- The event loop never touches the phase accumulator. -/
theorem Osc.consumeEvents_phase (sid : ℕ) :
    ∀ (l : List NoteEvent) (s : Osc), (Osc.consumeEvents sid s l).1.phase = s.phase := by
  intro l
  induction l with
  | nil => intro s; rfl
  | cons e rest ih =>
      intro s
      simp only [Osc.consumeEvents]
      split
      · rfl
      · rw [ih, Osc.applyEvent_phase]

/-- The event loop never touches the gain-parameter smoother. -/
theorem Osc.consumeEvents_gsm (sid : ℕ) :
    ∀ (l : List NoteEvent) (s : Osc),
      (Osc.consumeEvents sid s l).1.gain_smoother = s.gain_smoother := by
  intro l
  induction l with
  | nil => intro s; rfl
  | cons e rest ih =>
      intro s
      simp only [Osc.consumeEvents]
      split
      · rfl
      · rw [ih, Osc.applyEvent_gsm]

/-- Event application commutes with replacing the gain-parameter smoother:
the handler reads and writes only the note-tracking fields. -/
theorem Osc.applyEvent_set_gsm (s : Osc) (g : Smoother) (e : NoteEvent) :
    Osc.applyEvent { s with gain_smoother := g } e
      = { s.applyEvent e with gain_smoother := g } := by
  cases e with
  | noteOn t n v => rfl
  | noteOff t n => by_cases h : n = s.midi_note_id <;> simp [Osc.applyEvent, h]
  | polyPressure t n p => by_cases h : n = s.midi_note_id <;> simp [Osc.applyEvent, h]
  | other t => rfl

/-- The event loop commutes with replacing the gain-parameter smoother. -/
theorem Osc.consumeEvents_set_gsm (sid : ℕ) :
    ∀ (l : List NoteEvent) (s : Osc) (g : Smoother),
      Osc.consumeEvents sid { s with gain_smoother := g } l
        = ({ (Osc.consumeEvents sid s l).1 with gain_smoother := g },
           (Osc.consumeEvents sid s l).2) := by
  intro l
  induction l with
  | nil => intro s g; rfl
  | cons e rest ih =>
      intro s g
      simp only [Osc.consumeEvents, NoteEvent.timing]
      split
      · rfl
      · rw [Osc.applyEvent_set_gsm, ih]

/-- The oscillator advance commutes with replacing the gain-parameter
smoother. -/
theorem Osc.calculate_sine_set_gsm (s : Osc) (g : Smoother) (f : ℝ) :
    Osc.calculate_sine { s with gain_smoother := g } f
      = ({ (s.calculate_sine f).1 with gain_smoother := g }, (s.calculate_sine f).2) :=
  rfl

/-- Retargeting a smoother twice at the same sample rate is the same as
retargeting it once to the final value: `set_target` reads only the style
and the current value, both of which it leaves unchanged. -/
theorem Smoother.set_target_set_target (sm : Smoother) (sr v v' : ℝ) :
    (sm.set_target sr v).set_target sr v' = sm.set_target sr v' :=
  rfl

/-! ### Claim theorems -/

/-- C1: the claim says every event with `sampleOffset <= i` not yet
dispatched is dispatched at sample `i` and no due event is dropped.  The
source pops events with `context.next_event()` inside the per-sample
`while let` and, on `break`, discards the popped not-yet-due event instead
of holding it for a later sample.  Failing input: a 2-sample block whose
only event is `NoteOn(note=64, velocity=1)` at `sampleOffset = 1`.  The
event is popped (and lost) at sample 0, so it is never dispatched: the held
note id after the block is still the default 0, not 64, and the sample-0
dispatch pass already left the queue empty without changing the state. -/
theorem process_drops_future_event :
    (Osc.process Osc.default [NoteEvent.noteOn 1 64 1] 2 1).1.midi_note_id = 0
  ∧ Osc.consumeEvents 0 Osc.default [NoteEvent.noteOn 1 64 1] = (Osc.default, []) :=
  ⟨rfl, rfl⟩

/-- C2 counterexample: the claimed invariant `phase ∈ [0,1)` after any
number of advances fails for frequencies at or above the sample rate,
because the wrap subtracts 1.0 at most once.  With the default state
(`sample_rate = 1 > 0`, `phase = 0`) a single advance at frequency 2 leaves
`phase = 1`, which is outside `[0,1)`. -/
theorem phase_invariant_counterexample :
    0 < Osc.default.sample_rate
  ∧ (Osc.calculate_sine Osc.default 2).1.phase = 1
  ∧ ¬ (Osc.calculate_sine Osc.default 2).1.phase < 1 := by
  have h : (Osc.calculate_sine Osc.default 2).1.phase = 1 := by
    norm_num [Osc.calculate_sine, Osc.default]
  refine ⟨by norm_num [Osc.default], h, ?_⟩
  rw [h]
  exact lt_irrefl 1

/-- C2 amended: for a positive sample rate and any sequence of advance
calls whose frequencies all lie in `[0, sample_rate)`, a phase starting in
`[0,1)` stays in `[0,1)` (each per-sample increment is then in `[0,1)`, so
the single conditional subtraction is a correct wrap). -/
theorem phase_stays_in_unit_interval :
    ∀ (fs : List ℝ) (s : Osc), 0 < s.sample_rate → 0 ≤ s.phase → s.phase < 1 →
      (∀ f ∈ fs, 0 ≤ f ∧ f < s.sample_rate) →
      0 ≤ (s.advanceFreqs fs).phase ∧ (s.advanceFreqs fs).phase < 1 := by
  have step : ∀ (s : Osc) (f : ℝ), 0 < s.sample_rate → 0 ≤ s.phase → s.phase < 1 →
      0 ≤ f → f < s.sample_rate →
      0 ≤ (s.calculate_sine f).1.phase ∧ (s.calculate_sine f).1.phase < 1 := by
    intro s f hsr h0 h1 hf0 hf1
    have hd0 : 0 ≤ f / s.sample_rate := div_nonneg hf0 hsr.le
    have hd1 : f / s.sample_rate < 1 := (div_lt_one hsr).mpr hf1
    simp only [Osc.calculate_sine]
    constructor
    · split <;> linarith
    · split <;> linarith
  intro fs
  induction fs with
  | nil => intro s _ h0 h1 _; exact ⟨h0, h1⟩
  | cons f rest ih =>
      intro s hsr h0 h1 hfs
      have hf := hfs f (List.mem_cons_self f rest)
      have hstep := step s f hsr h0 h1 hf.1 hf.2
      have hrw : s.advanceFreqs (f :: rest) = (s.calculate_sine f).1.advanceFreqs rest := rfl
      rw [hrw]
      exact ih (s.calculate_sine f).1 hsr hstep.1 hstep.2
        (fun f' hf' => hfs f' (List.mem_cons_of_mem f hf'))

/-- Witness for the amended C2 theorem at a concrete input. -/
theorem phase_stays_in_unit_interval_witness :
    (0 < Osc.default.sample_rate ∧ 0 ≤ Osc.default.phase ∧ Osc.default.phase < 1
      ∧ ∀ f ∈ ([1 / 2] : List ℝ), 0 ≤ f ∧ f < Osc.default.sample_rate)
  ∧ 0 ≤ (Osc.default.advanceFreqs [1 / 2]).phase
  ∧ (Osc.default.advanceFreqs [1 / 2]).phase < 1 :=
  ⟨⟨by norm_num [Osc.default], by norm_num [Osc.default], by norm_num [Osc.default],
    by intro f hf; rw [List.mem_singleton] at hf; subst hf; norm_num [Osc.default]⟩,
   phase_stays_in_unit_interval [1 / 2] Osc.default (by norm_num [Osc.default])
     (by norm_num [Osc.default]) (by norm_num [Osc.default])
     (by intro f hf; rw [List.mem_singleton] at hf; subst hf; norm_num [Osc.default])⟩

/-- C3 counterexample: the claim says any call with frequency `<= 0` leaves
the phase unchanged.  The source divides unconditionally, so a negative
frequency moves the phase backwards: from the default state (`phase = 0`,
`sample_rate = 1`) one call at frequency `-1` leaves `phase = -1 ≠ 0`. -/
theorem freeze_claim_counterexample :
    ((-1 : ℝ) ≤ 0)
  ∧ (Osc.calculate_sine Osc.default (-1)).1.phase = -1
  ∧ (Osc.calculate_sine Osc.default (-1)).1.phase ≠ Osc.default.phase := by
  have h : (Osc.calculate_sine Osc.default (-1)).1.phase = -1 := by
    norm_num [Osc.calculate_sine, Osc.default]
  refine ⟨by norm_num, h, ?_⟩
  rw [h]
  norm_num [Osc.default]

/-- C3 amended: a call with frequency exactly 0 (with a nonzero sample rate
and the current phase below 1) leaves the entire state unchanged and
returns the sample held at the current phase; negative frequencies move the
phase backwards instead of freezing it. -/
theorem zero_frequency_freezes_phase (s : Osc) (_hsr : s.sample_rate ≠ 0)
    (hp : s.phase < 1) :
    s.calculate_sine 0 = (s, Real.sin (s.phase * (2 * Real.pi))) := by
  simp only [Osc.calculate_sine, zero_div, add_zero, ge_iff_le,
    if_neg (not_le.mpr hp)]

/-- Witness for the amended C3 theorem at a concrete input. -/
theorem zero_frequency_freezes_phase_witness :
    (Osc.default.sample_rate ≠ 0 ∧ Osc.default.phase < 1)
  ∧ Osc.calculate_sine Osc.default 0
      = (Osc.default, Real.sin (Osc.default.phase * (2 * Real.pi))) :=
  ⟨⟨by norm_num [Osc.default], by norm_num [Osc.default]⟩,
   zero_frequency_freezes_phase Osc.default (by norm_num [Osc.default])
     (by norm_num [Osc.default])⟩

/-- C4: a `NoteOff` or `PolyPressure` event whose note id differs from the
currently held `midi_note_id` leaves the whole state unchanged, from every
state (in particular from the never-held default state). -/
theorem events_for_other_notes_ignored (s : Osc) (t note : ℕ) (pressure : ℝ)
    (h : note ≠ s.midi_note_id) :
    s.applyEvent (NoteEvent.noteOff t note) = s
  ∧ s.applyEvent (NoteEvent.polyPressure t note pressure) = s := by
  constructor <;> simp [Osc.applyEvent, h]

/-- Witness for C4 at a concrete input: `NoteOff(5)`/`PolyPressure(5)` on
the default state (which holds note id 0) are no-ops. -/
theorem events_for_other_notes_ignored_witness :
    (5 ≠ Osc.default.midi_note_id)
  ∧ Osc.applyEvent Osc.default (NoteEvent.noteOff 0 5) = Osc.default
  ∧ Osc.applyEvent Osc.default (NoteEvent.polyPressure 0 5 0) = Osc.default :=
  ⟨by decide,
   (events_for_other_notes_ignored Osc.default 0 5 0 (by decide)).1,
   (events_for_other_notes_ignored Osc.default 0 5 0 (by decide)).2⟩

/-- C6: `NoteOn(note, velocity)` always sets the held note id to `note`,
the note frequency to `440 * 2^((note-69)/12)`, and the amplitude
smoother's target to `velocity`, from any state; moreover
`NoteOn(60)` immediately followed by `NoteOn(64)` produces exactly the
state `NoteOn(64)` alone would produce — no residual influence of note
60. -/
theorem note_on_overrides (s : Osc) (t t' note : ℕ) (v v' : ℝ) :
    (s.applyEvent (NoteEvent.noteOn t note v)).midi_note_id = note
  ∧ (s.applyEvent (NoteEvent.noteOn t note v)).midi_note_freq
      = 440 * (2 : ℝ) ^ (((note : ℝ) - 69) / 12)
  ∧ (s.applyEvent (NoteEvent.noteOn t note v)).midi_note_gain.target = v
  ∧ (s.applyEvent (NoteEvent.noteOn t 60 v)).applyEvent (NoteEvent.noteOn t' 64 v')
      = s.applyEvent (NoteEvent.noteOn t' 64 v') := by
  refine ⟨rfl, ?_, rfl, rfl⟩
  show midi_note_to_freq note = _
  unfold midi_note_to_freq
  ring

/-- C8: `reset()` restores phase, held note id, note frequency and the
amplitude smoother to their power-on defaults, and leaves the session
sample rate (whatever `initialize` set it to) and the host-owned parameter
smoother untouched. -/
theorem reset_restores_power_on_defaults (s : Osc) (sr : ℝ) :
    s.reset.phase = Osc.default.phase
  ∧ s.reset.midi_note_id = Osc.default.midi_note_id
  ∧ s.reset.midi_note_freq = Osc.default.midi_note_freq
  ∧ s.reset.midi_note_gain = Osc.default.midi_note_gain
  ∧ s.reset.sample_rate = s.sample_rate
  ∧ s.reset.gain_smoother = s.gain_smoother
  ∧ ((s.initSession sr).reset).sample_rate = sr :=
  ⟨rfl, rfl, rfl, rfl, rfl, rfl, rfl⟩

/-- C9: `process` is deterministic — equal starting states, event queues,
block lengths and channel counts give equal outputs and final states.  (The
embedding is a pure function of exactly these inputs; the source reads no
other data on this path.) -/
theorem process_deterministic (s s' : Osc) (ev ev' : List NoteEvent)
    (n n' c c' : ℕ) (hs : s = s') (hev : ev = ev') (hn : n = n') (hc : c = c') :
    Osc.process s ev n c = Osc.process s' ev' n' c' := by
  subst hs
  subst hev
  subst hn
  subst hc
  rfl

/-- Witness for C9 at a concrete input. -/
theorem process_deterministic_witness :
    Osc.default = Osc.default
  ∧ Osc.process Osc.default [] 1 1 = Osc.process Osc.default [] 1 1 :=
  ⟨rfl, process_deterministic Osc.default Osc.default [] [] 1 1 1 1 rfl rfl rfl rfl⟩

/-- C10: dispatching events (in particular `NoteOn`) never modifies the
oscillator phase — neither a single handler nor the whole per-sample event
loop — and the phase produced by a processed sample is exactly the phase
computed by `calculate_sine` on the post-dispatch state. -/
theorem phase_mutated_only_by_advance :
    (∀ (s : Osc) (e : NoteEvent), (s.applyEvent e).phase = s.phase)
  ∧ (∀ (sid : ℕ) (s : Osc) (l : List NoteEvent),
      (Osc.consumeEvents sid s l).1.phase = s.phase)
  ∧ (∀ (s : Osc) (l : List NoteEvent) (sid : ℕ),
      (s.processSample l sid).1.phase
        = ((Osc.consumeEvents sid { s with gain_smoother := s.gain_smoother.next.1 } l).1.calculate_sine
            (Osc.consumeEvents sid { s with gain_smoother := s.gain_smoother.next.1 } l).1.midi_note_freq).1.phase) :=
  ⟨Osc.applyEvent_phase,
   fun sid s l => Osc.consumeEvents_phase sid l s,
   fun _ _ _ => rfl⟩

/-! ### Refinement of the per-sample formula (C7) -/

/-- The oscillator advance leaves the amplitude smoother alone. -/
theorem Osc.calculate_sine_amp (s : Osc) (f : ℝ) :
    (s.calculate_sine f).1.midi_note_gain = s.midi_note_gain :=
  rfl

/-- The oscillator advance leaves the gain-parameter smoother alone. -/
theorem Osc.calculate_sine_gsm (s : Osc) (f : ℝ) :
    (s.calculate_sine f).1.gain_smoother = s.gain_smoother :=
  rfl

/-- The two dB conversions coincide: the source's `db_to_gain_fast` is the
spec's `dBToLinear`. -/
theorem db_to_gain_fast_eq_dBToLinear (x : ℝ) : db_to_gain_fast x = dBToLinear x :=
  rfl

/-- One processed sample equals the spec's per-sample pipeline: the source
merely advances the gain-parameter smoother before dispatching events
instead of after, and that smoother is untouched by the dispatch and the
oscillator, so the produced value and state agree. -/
theorem Osc.processSample_eq_specSample (s : Osc) (events : List NoteEvent) (sid : ℕ) :
    s.processSample events sid = s.specSample events sid := by
  simp only [Osc.processSample, Osc.specSample, Osc.consumeEvents_set_gsm,
    Osc.calculate_sine_set_gsm, Osc.calculate_sine_gsm, Osc.consumeEvents_gsm,
    db_to_gain_fast_eq_dBToLinear]

/-- The per-block loop equals the spec's per-block loop. -/
theorem Osc.processFrom_eq_specProcessFrom (numCh : ℕ) :
    ∀ (n : ℕ) (s : Osc) (events : List NoteEvent) (sid : ℕ),
      Osc.processFrom numCh n s events sid = Osc.specProcessFrom numCh n s events sid := by
  intro n
  induction n with
  | zero => intro s ev sid; rfl
  | succ n ih =>
      intro s ev sid
      simp only [Osc.processFrom, Osc.specProcessFrom, Osc.processSample_eq_specSample, ih]

/-- C7: at each sample index `process` writes
`sin(phase * 2π) * amplitude.next() * 10^(gain.next()/20)` — the sine read
at the pre-advance phase, each smoother advanced exactly once — identically
to every output channel, and returns the keep-alive status (never a
completion status). -/
theorem process_implements_block_formula (s : Osc) (events : List NoteEvent)
    (blockLen numCh : ℕ) :
    Osc.process s events blockLen numCh = Osc.blockProcessorSpec s events blockLen numCh
  ∧ (Osc.process s events blockLen numCh).2.2 = ProcessStatus.keepAlive := by
  constructor
  · unfold Osc.process Osc.blockProcessorSpec
    rw [Osc.processFrom_eq_specProcessFrom]
  · rfl

/-! ### Silence (C5) -/

/-- A silent amplitude smoother emits 0 and stays silent. -/
theorem Smoother.next_silent {sm : Smoother} (h : silentAmp sm) :
    (sm.next).2 = 0 ∧ silentAmp (sm.next).1 := by
  obtain ⟨h1, h2, h3⟩ := h
  by_cases hc : sm.stepsLeft > 0
  · by_cases h1c : sm.stepsLeft = 1 <;>
      simp [Smoother.next, silentAmp, hc, h1c, h1, h2, h3]
  · simp [Smoother.next, silentAmp, hc, h1, h2, h3]

/-- Retargeting a silent amplitude smoother to 0 keeps it silent. -/
theorem Smoother.set_target_zero_silent {sm : Smoother} (sr : ℝ) (h : silentAmp sm) :
    silentAmp (sm.set_target sr 0) := by
  obtain ⟨h1, h2, h3⟩ := h
  simp [Smoother.set_target, silentAmp, h1]

/-- Events allowed for silence preserve silent states. -/
theorem Osc.applyEvent_silent {s : Osc} {e : NoteEvent} (hs : silentState s)
    (he : eventAllowedForSilence e = true) : silentState (s.applyEvent e) := by
  obtain ⟨hid, hamp⟩ := hs
  cases e with
  | noteOn t n v => simp [eventAllowedForSilence] at he
  | noteOff t n =>
      by_cases h : n = s.midi_note_id
      · constructor
        · simpa [Osc.applyEvent, h] using hid
        · have hst := Smoother.set_target_zero_silent s.sample_rate hamp
          simpa [Osc.applyEvent, h] using hst
      · have hrw : s.applyEvent (NoteEvent.noteOff t n) = s := by
          simp [Osc.applyEvent, h]
        rw [hrw]
        exact ⟨hid, hamp⟩
  | polyPressure t n p =>
      have hn : n ≠ 0 := by simpa [eventAllowedForSilence] using he
      have h : n ≠ s.midi_note_id := by rw [hid]; exact hn
      have hrw : s.applyEvent (NoteEvent.polyPressure t n p) = s := by
        simp [Osc.applyEvent, h]
      rw [hrw]
      exact ⟨hid, hamp⟩
  | other t => exact ⟨hid, hamp⟩

/-- The queue left behind by the event loop only holds events of the input
queue. -/
theorem Osc.consumeEvents_rest_mem (sid : ℕ) :
    ∀ (l : List NoteEvent) (s : Osc) (e : NoteEvent),
      e ∈ (Osc.consumeEvents sid s l).2 → e ∈ l := by
  intro l
  induction l with
  | nil => intro s e h; exact absurd h (List.not_mem_nil e)
  | cons a rest ih =>
      intro s e h
      simp only [Osc.consumeEvents] at h
      by_cases hc : a.timing > sid
      · rw [if_pos hc] at h
        exact List.mem_cons_of_mem a h
      · rw [if_neg hc] at h
        exact List.mem_cons_of_mem a (ih _ e h)

/-- The event loop preserves silent states when every queued event is
allowed for silence. -/
theorem Osc.consumeEvents_silent (sid : ℕ) :
    ∀ (l : List NoteEvent) (s : Osc), silentState s →
      (∀ e ∈ l, eventAllowedForSilence e = true) →
      silentState (Osc.consumeEvents sid s l).1 := by
  intro l
  induction l with
  | nil => intro s hs _; exact hs
  | cons a rest ih =>
      intro s hs hl
      simp only [Osc.consumeEvents]
      by_cases hc : a.timing > sid
      · rw [if_pos hc]
        exact hs
      · rw [if_neg hc]
        exact ih _ (Osc.applyEvent_silent hs (hl a (List.mem_cons_self a rest)))
          (fun e he => hl e (List.mem_cons_of_mem a he))

/-- A processed sample from a silent state writes 0, stays silent, and
leaves only allowed events queued. -/
theorem Osc.processSample_silent {s : Osc} {l : List NoteEvent} {sid : ℕ}
    (hs : silentState s) (hl : ∀ e ∈ l, eventAllowedForSilence e = true) :
    (s.processSample l sid).2.2 = 0
  ∧ silentState (s.processSample l sid).1
  ∧ ∀ e ∈ (s.processSample l sid).2.1, eventAllowedForSilence e = true := by
  have hc := Osc.consumeEvents_silent sid l
      ({ s with gain_smoother := (s.gain_smoother.next).1 }) hs hl
  have hamp := Smoother.next_silent hc.2
  have h2 : (s.processSample l sid).2.2
      = ((Osc.consumeEvents sid { s with gain_smoother := (s.gain_smoother.next).1 } l).1.calculate_sine
            (Osc.consumeEvents sid { s with gain_smoother := (s.gain_smoother.next).1 } l).1.midi_note_freq).2
        * ((Osc.consumeEvents sid { s with gain_smoother := (s.gain_smoother.next).1 } l).1.midi_note_gain.next).2
        * db_to_gain_fast ((s.gain_smoother.next)).2 := rfl
  refine ⟨?_, ⟨hc.1, hamp.2⟩, fun e he => hl e (Osc.consumeEvents_rest_mem sid l _ e he)⟩
  rw [h2, hamp.1]
  ring

/-- The whole block loop from a silent state writes only zeros and ends
silent. -/
theorem Osc.processFrom_silent (numCh : ℕ) :
    ∀ (n : ℕ) (s : Osc) (l : List NoteEvent) (sid : ℕ), silentState s →
      (∀ e ∈ l, eventAllowedForSilence e = true) →
      (∀ row ∈ (Osc.processFrom numCh n s l sid).2, ∀ x ∈ row, x = 0)
      ∧ silentState (Osc.processFrom numCh n s l sid).1 := by
  intro n
  induction n with
  | zero =>
      intro s l sid hs _
      exact ⟨fun row hr => absurd hr (List.not_mem_nil row), hs⟩
  | succ n ih =>
      intro s l sid hs hl
      have hps := @Osc.processSample_silent s l sid hs hl
      have hrec := ih (s.processSample l sid).1 (s.processSample l sid).2.1 (sid + 1)
        hps.2.1 hps.2.2
      constructor
      · intro row hr
        have hshape : (Osc.processFrom numCh (n + 1) s l sid).2
            = List.replicate numCh (s.processSample l sid).2.2
              :: (Osc.processFrom numCh n (s.processSample l sid).1
                    (s.processSample l sid).2.1 (sid + 1)).2 := rfl
        rw [hshape] at hr
        rcases List.mem_cons.mp hr with h | h
        · intro x hx
          rw [h] at hx
          rw [List.eq_of_mem_replicate hx, hps.1]
        · exact hrec.1 row h
      · exact hrec.2

/-- C5 amended: starting from the power-on default state (any phase, any
sample rate, any master-gain smoother state), if no `NoteOn` and no
`PolyPressure` for note id 0 is ever received, the amplitude smoother's
target stays 0 and every sample written by `process` is exactly 0.  (The
counterexample below shows why `PolyPressure` for note id 0 — the default
`midi_note_id` — must be excluded.) -/
theorem silence_without_note_on (events : List NoteEvent) (blockLen numCh : ℕ)
    (ph sr : ℝ) (gsm : Smoother)
    (h : ∀ e ∈ events, eventAllowedForSilence e = true) :
    (∀ row ∈ (Osc.process { Osc.default with phase := ph, sample_rate := sr, gain_smoother := gsm } events blockLen numCh).2.1,
        ∀ x ∈ row, x = 0)
  ∧ (Osc.process { Osc.default with phase := ph, sample_rate := sr, gain_smoother := gsm } events blockLen numCh).1.midi_note_gain.target = 0 := by
  have hsil : silentState ({ Osc.default with phase := ph, sample_rate := sr, gain_smoother := gsm } : Osc) :=
    ⟨rfl, rfl, rfl, rfl⟩
  have hmain := Osc.processFrom_silent numCh blockLen _ events 0 hsil h
  exact ⟨hmain.1, hmain.2.2.2.1⟩

/-- Witness for the amended C5 theorem at a concrete input. -/
theorem silence_without_note_on_witness :
    (∀ e ∈ [NoteEvent.noteOff 0 3], eventAllowedForSilence e = true)
  ∧ ((∀ row ∈ (Osc.process { Osc.default with phase := 0, sample_rate := 1, gain_smoother := Smoother.new 3 } [NoteEvent.noteOff 0 3] 1 1).2.1,
        ∀ x ∈ row, x = 0)
    ∧ (Osc.process { Osc.default with phase := 0, sample_rate := 1, gain_smoother := Smoother.new 3 } [NoteEvent.noteOff 0 3] 1 1).1.midi_note_gain.target = 0) :=
  ⟨by decide, silence_without_note_on [NoteEvent.noteOff 0 3] 1 1 0 1 (Smoother.new 3) (by decide)⟩

/-- Unfolded form of `Smoother.set_target`. -/
theorem Smoother.set_target_fields (sm : Smoother) (sr t : ℝ) :
    sm.set_target sr t
      = { style_ms := sm.style_ms
          stepsLeft := (round (sr * sm.style_ms / 1000)).toNat
          stepSize := (t - sm.current) / (((round (sr * sm.style_ms / 1000)).toNat : ℕ) : ℝ)
          current := sm.current
          target := t } :=
  rfl

/-- C5 counterexample: the claim promises silence whenever no `NoteOn` is
ever received, but the power-on default `midi_note_id` is 0, so a
`PolyPressure` event for note 0 passes the source's `note ==
self.midi_note_id` guard without any preceding `NoteOn`.  From the default
state with phase 1/4 (the claim quantifies over all phases), the block
consisting only of `PolyPressure(note=0, pressure=1)` at offset 0 retargets
the amplitude smoother to 1 (which snaps immediately at the default sample
rate 1, since `round(1 * 5ms / 1000) = 0` steps) and `process` writes
`sin(π/2) * 1 * db_to_gain_fast(-10) = db_to_gain_fast(-10)`, a nonzero
sample. -/
theorem silence_claim_counterexample :
    (Osc.process { Osc.default with phase := 1 / 4 } [NoteEvent.polyPressure 0 0 1] 1 1).2.1
      = [[db_to_gain_fast (-10)]]
  ∧ db_to_gain_fast (-10) ≠ 0
  ∧ (Osc.process { Osc.default with phase := 1 / 4 } [NoteEvent.polyPressure 0 0 1] 1 1).1.midi_note_gain.target = 1 := by
  have hr0 : round ((1 : ℝ) * (Smoother.new 5).style_ms / 1000) = 0 := by
    have harg : (1 : ℝ) * (Smoother.new 5).style_ms / 1000 = 1 / 200 := by
      norm_num [Smoother.new]
    rw [harg, round_eq]
    have h2 : ((1 : ℝ) / 200 + 1 / 2) = 101 / 200 := by norm_num
    rw [h2]
    apply Int.floor_eq_zero_iff.mpr
    rw [Set.mem_Ico]
    constructor <;> norm_num
  have hsm : Smoother.set_target (Smoother.new 5) 1 1 = Smoother.mk 5 0 0 0 1 := by
    rw [Smoother.set_target_fields, hr0]
    norm_num [Smoother.new]
  have hsin : Real.sin ((1 / 4 : ℝ) * (2 * Real.pi)) = 1 := by
    have h : (1 / 4 : ℝ) * (2 * Real.pi) = Real.pi / 2 := by ring
    rw [h, Real.sin_pi_div_two]
  have hpos : (0 : ℝ) < db_to_gain_fast (-10) := by
    unfold db_to_gain_fast
    exact Real.rpow_pos_of_pos (by norm_num) _
  refine ⟨?_, ne_of_gt hpos, ?_⟩
  · have h1 : (Osc.process { Osc.default with phase := 1 / 4 } [NoteEvent.polyPressure 0 0 1] 1 1).2.1
        = [[Real.sin ((1 / 4 : ℝ) * (2 * Real.pi))
            * (Smoother.next (Smoother.set_target (Smoother.new 5) 1 1)).2
            * db_to_gain_fast (-10)]] := rfl
    rw [h1, hsm, hsin]
    have ha : (Smoother.next (Smoother.mk 5 0 0 0 1)).2 = 1 := rfl
    rw [ha]
    norm_num
  · have h3 : (Osc.process { Osc.default with phase := 1 / 4 } [NoteEvent.polyPressure 0 0 1] 1 1).1.midi_note_gain
        = (Smoother.next (Smoother.set_target (Smoother.new 5) 1 1)).1 := rfl
    rw [h3, hsm]
    rfl

end

end Blush
